import Mathlib

/-!
Verification of the cloud-storage-cli HTTP client and validation layer.

The Go sources are embedded shallowly: strings are `String` (lists of
runes), byte-level and rune-level processing coincide because every
pattern the code manipulates is ASCII.  The standard-library helpers the
code relies on (`strings.ReplaceAll`, `strings.Contains`,
`strings.HasPrefix`, `strings.TrimSuffix`, `strings.Split`,
`filepath.Base`, `strings.ToUpper`, `strings.TrimSpace`) are embedded as
executable Lean functions with the same semantics on the inputs the
program feeds them.
-/

namespace CloudStorage

/-- Embeds `strings.Contains` (substring test): does `sub` occur inside
the list? -/
def containsSub (sub : List Char) : List Char → Bool
  | [] => sub.isEmpty
  | c :: rest => sub.isPrefixOf (c :: rest) || containsSub sub rest

/-- String version of `strings.Contains s sub`. -/
def goContains (s sub : String) : Bool :=
  containsSub sub.data s.data

/-- Embeds `strings.HasPrefix`. -/
def goStartsWith (s pre : String) : Bool :=
  pre.data.isPrefixOf s.data

/-- Embeds `strings.TrimSuffix`: removes one trailing copy of `suffix`
when present, otherwise returns the string unchanged. -/
def goTrimSuffix (s suffix : String) : String :=
  if suffix.data.isSuffixOf s.data then
    (s.data.take (s.data.length - suffix.data.length)).asString
  else s

/-- Embeds `strings.ToUpper`.  The program only compares the result
against ASCII reserved device names, so ASCII uppercasing is the
relevant fragment. -/
def goToUpper (s : String) : String :=
  (s.data.map Char.toUpper).asString

/-- Go `unicode.IsSpace` restricted to the ASCII range (the only
characters `strings.TrimSpace` can meet in the headers the client
parses). -/
def goIsSpace (c : Char) : Bool :=
  c = ' ' || c = '\t' || c = '\n' || c = '\x0b' || c = '\x0c' || c = '\r'

/-- Embeds `strings.TrimSpace`. -/
def goTrimSpace (s : String) : String :=
  ((s.data.dropWhile goIsSpace).reverse.dropWhile goIsSpace).reverse.asString

/-- Trailing-separator stripping step of Go `filepath.Base` (Unix
separator `/`). -/
def dropTrailingSep (l : List Char) : List Char :=
  (l.reverse.dropWhile (fun c => c = '/')).reverse

/-- The suffix of `l` after its last `/` (all of `l` when it has no
`/`). -/
def afterLastSep (l : List Char) : List Char :=
  (l.reverse.takeWhile (fun c => c ≠ '/')).reverse

/-- Embeds Go `path/filepath.Base` on Unix: empty input gives `"."`,
trailing slashes are stripped, everything up to the last remaining `/`
is discarded, and an all-slash input gives `"/"`. -/
def goFilepathBase (s : String) : String :=
  if s.data.isEmpty then "."
  else
    let stripped := dropTrailingSep s.data
    let last := afterLastSep stripped
    if last.isEmpty then "/" else last.asString

/-- Fueled worker for `strings.ReplaceAll`: scan left to right, replace
each non-overlapping occurrence of `pat`.  Each step consumes at least
one character, so fuel equal to the input length is always enough. -/
def replaceAllFuel (pat rep : List Char) : Nat → List Char → List Char
  | _, [] => []
  | 0, l => l
  | fuel + 1, c :: rest =>
    if ¬ pat.isEmpty ∧ pat.isPrefixOf (c :: rest) then
      rep ++ replaceAllFuel pat rep fuel (List.drop pat.length (c :: rest))
    else
      c :: replaceAllFuel pat rep fuel rest

/-- Embeds `strings.ReplaceAll s old new` for the non-empty patterns the
program uses. -/
def goReplaceAll (s old new : String) : String :=
  (replaceAllFuel old.data new.data s.data.length s.data).asString

/-- Embeds `strings.Split s "/"` (the only separator the client splits
on): the list of `/`-separated segments, never empty. -/
def goSplitSlash : List Char → List (List Char)
  | [] => [[]]
  | c :: rest =>
    if c = '/' then [] :: goSplitSlash rest
    else
      match goSplitSlash rest with
      | [] => [[c]]
      | h :: t => (c :: h) :: t

end CloudStorage

namespace CloudStorage

/-- Embeds the `APIError` struct of the client package: status code,
message and details from the response body, plus the request method and
fully-resolved URL. -/
structure APIError where
  statusCode : Nat
  message : String
  details : String
  method : String
  url : String
deriving Repr, DecidableEq

/-- Embeds `NewAPIError`. -/
def NewAPIError (statusCode : Nat) (message : String) : APIError :=
  { statusCode := statusCode, message := message, details := "", method := "", url := "" }

/-- Embeds the `Error()` method of `*APIError`, including its duplicated
inner `e.Message != ""` test (whose `else` arm is consequently dead
code). -/
def APIError.errorString (e : APIError) : String :=
  let baseMsg :=
    if e.method ≠ "" ∧ e.url ≠ "" then
      "API error (" ++ toString e.statusCode ++ ") [" ++ e.method ++ " " ++ e.url ++ "]"
    else
      "API error (" ++ toString e.statusCode ++ ")"
  if e.details ≠ "" then
    baseMsg ++ ": " ++ e.message ++ " - " ++ e.details
  else if e.message ≠ "" then
    if e.message ≠ "" then
      baseMsg ++ ": " ++ e.message ++ " - " ++ e.details
    else
      baseMsg ++ ": " ++ e.details
  else
    baseMsg

end CloudStorage

namespace CloudStorage

/-- Embeds the `Client` struct (the `http.Client` handle carries no
observable state for the properties below). -/
structure Client where
  baseURL : String
  accessToken : String
  apiKey : String
deriving Repr, DecidableEq

/-- Embeds `buildURL`: prefix the path with `/` when missing, strip one
trailing `/` from the base URL, concatenate.  (`url.Parse` accepts every
string the client builds here, so the validation step never fails and is
not modelled.) -/
def buildURL (c : Client) (path : String) : String :=
  let path := if goStartsWith path "/" then path else "/" ++ path
  goTrimSuffix c.baseURL "/" ++ path

/-- Embeds `http.Header.Set`: replace every existing value for the key,
then record the new one. -/
def headerSet (hs : List (String × String)) (k v : String) : List (String × String) :=
  hs.filter (fun p => p.1 ≠ k) ++ [(k, v)]

/-- Embeds `setAuthHeaders`: the API key header wins when both
credentials are set, the bearer token is used otherwise, and nothing is
attached when neither is configured. -/
def setAuthHeaders (c : Client) (hs : List (String × String)) : List (String × String) :=
  if c.apiKey ≠ "" then headerSet hs "X-API-Key" c.apiKey
  else if c.accessToken ≠ "" then headerSet hs "Authorization" ("Bearer " ++ c.accessToken)
  else hs

/-- The headers `doRequest` installs on a fresh request before calling
`setAuthHeaders`. -/
def baseJSONHeaders : List (String × String) :=
  headerSet (headerSet [] "Content-Type" "application/json") "Accept" "application/json"

/-- The complete header list of a JSON request built by `doRequest` for
client `c`. -/
def requestHeaders (c : Client) : List (String × String) :=
  setAuthHeaders c baseJSONHeaders

/-- A completed HTTP response as the client observes it.  `body = none`
models an `io.ReadAll` failure while draining the response; `status` is
the HTTP status line text (`resp.Status`). -/
structure Response where
  statusCode : Nat
  status : String
  body : Option String
  contentDisposition : String
deriving Repr, DecidableEq

/-- Errors surfaced by the client: a structured `*APIError`, or one of
the generic `fmt.Errorf` wrappers. -/
inductive ClientError where
  | api (e : APIError)
  | generic (msg : String)
deriving Repr, DecidableEq

/-- Embeds `parseErrorResponse` of the client package.  `parseJSON`
stands for `json.Unmarshal` into an `APIError` value (`none` when the
body is not valid JSON); the actual status code, method and resolved URL
always overwrite whatever the body carried. -/
def parseErrorResponse (parseJSON : String → Option APIError)
    (resp : Response) (method url : String) : APIError :=
  match resp.body with
  | none =>
    { NewAPIError resp.statusCode "Failed to read error response" with
        method := method, url := url }
  | some body =>
    match parseJSON body with
    | some a => { a with statusCode := resp.statusCode, method := method, url := url }
    | none =>
      let message := if body = "" then resp.status else body
      { NewAPIError resp.statusCode message with method := method, url := url }

/-- Embeds `doRequest` from the point the exchange is attempted.
`outcome` is what `HTTPClient.Do` produced: a transport failure message,
or a completed response.  Request-body marshalling and request
construction precede the exchange and always succeed for the inputs the
claims quantify over. -/
def doRequest (parseJSON : String → Option APIError) (c : Client)
    (method path : String) (outcome : Except String Response) :
    Except ClientError Response :=
  let fullURL := buildURL c path
  match outcome with
  | .error msg =>
    .error (.generic ("request failed [" ++ method ++ " " ++ fullURL ++ "]: " ++ msg))
  | .ok resp =>
    if resp.statusCode ≥ 400 then
      .error (.api (parseErrorResponse parseJSON resp method fullURL))
    else
      .ok resp

/-- Shared success-path tail of `Get`/`Post`/`Put`: skip the body when
the caller passed a nil result, otherwise read it (`none` models a read
failure) and unmarshal it (`decodeOk` stands for `json.Unmarshal` into
the caller's result type). -/
def consumeResult (wantResult : Bool) (decodeOk : String → Bool)
    (resp : Response) : Except ClientError Unit :=
  if ¬ wantResult then .ok ()
  else
    match resp.body with
    | none => .error (.generic "failed to read response body")
    | some body =>
      if decodeOk body then .ok ()
      else .error (.generic "failed to unmarshal response")

/-- Embeds `Client.Get`. -/
def Client.Get (parseJSON : String → Option APIError) (c : Client) (path : String)
    (outcome : Except String Response) (wantResult : Bool) (decodeOk : String → Bool) :
    Except ClientError Unit :=
  match doRequest parseJSON c "GET" path outcome with
  | .error e => .error e
  | .ok resp => consumeResult wantResult decodeOk resp

/-- Embeds `Client.Post`. -/
def Client.Post (parseJSON : String → Option APIError) (c : Client) (path : String)
    (outcome : Except String Response) (wantResult : Bool) (decodeOk : String → Bool) :
    Except ClientError Unit :=
  match doRequest parseJSON c "POST" path outcome with
  | .error e => .error e
  | .ok resp => consumeResult wantResult decodeOk resp

/-- Embeds `Client.Put`. -/
def Client.Put (parseJSON : String → Option APIError) (c : Client) (path : String)
    (outcome : Except String Response) (wantResult : Bool) (decodeOk : String → Bool) :
    Except ClientError Unit :=
  match doRequest parseJSON c "PUT" path outcome with
  | .error e => .error e
  | .ok resp => consumeResult wantResult decodeOk resp

/-- Embeds `Client.Delete`. -/
def Client.Delete (parseJSON : String → Option APIError) (c : Client) (path : String)
    (outcome : Except String Response) : Except ClientError Unit :=
  match doRequest parseJSON c "DELETE" path outcome with
  | .error e => .error e
  | .ok _ => .ok ()

end CloudStorage

namespace CloudStorage

/-- One part of a multipart form: either the binary file part
(`CreateFormFile`) or a plain text field (`WriteField`). -/
inductive FormPart where
  | filePart (fieldName fileName content : String)
  | field (name value : String)
deriving Repr, DecidableEq

/-- Modelled from the spec: the five-parameter `UploadFile` (with the
optional `filename` override) is absent from `src/` — only its callers
and its test (`TestClient_UploadFile`) appear there.  Per the spec,
"constructs a multipart form with a `file` field carrying the local
file's bytes under its base filename, plus optional `folderPath` and
`filename` text fields when non-empty"; the `file` and `folderPath`
parts follow the four-parameter `UploadFile` that is in `src/`. -/
def uploadForm (filePath fileContent folderPath filename : String) : List FormPart :=
  [FormPart.filePart "file" (goFilepathBase filePath) fileContent]
    ++ (if folderPath ≠ "" then [FormPart.field "folderPath" folderPath] else [])
    ++ (if filename ≠ "" then [FormPart.field "filename" filename] else [])

/-- Embeds the request/response half of `UploadFile` (POST of the
multipart body, then the same status-code handling as the JSON verbs). -/
def Client.UploadFile (parseJSON : String → Option APIError) (c : Client) (path : String)
    (outcome : Except String Response) (wantResult : Bool) (decodeOk : String → Bool) :
    Except ClientError Unit :=
  let fullURL := buildURL c path
  match outcome with
  | .error msg =>
    .error (.generic ("request failed [POST " ++ fullURL ++ "]: " ++ msg))
  | .ok resp =>
    if resp.statusCode ≥ 400 then
      .error (.api (parseErrorResponse parseJSON resp "POST" fullURL))
    else
      consumeResult wantResult decodeOk resp

/-- Second alternative `([^;]+)` of the filename regex: a non-empty run
of non-semicolon characters, captured as group 2. -/
def matchUnquoted (l : List Char) : Option (String × String) :=
  let content := l.takeWhile (fun c => c ≠ ';')
  if content.isEmpty then none else some ("", content.asString)

/-- The value part of the regex `(?:"([^"]+)"|([^;]+))`: try the quoted
alternative first (non-empty, with a closing quote), else fall back to
the unquoted one. -/
def matchValue (l : List Char) : Option (String × String) :=
  match l with
  | '"' :: rest =>
    let content := rest.takeWhile (fun c => c ≠ '"')
    if ¬ content.isEmpty ∧ content.length < rest.length then
      some (content.asString, "")
    else matchUnquoted ('"' :: rest)
  | _ => matchUnquoted l

/-- Try the regex `filename[*]?=(?:"([^"]+)"|([^;]+))` anchored at the
head of `l`. -/
def matchFilenameAt (l : List Char) : Option (String × String) :=
  if ("filename".data).isPrefixOf l then
    match l.drop 8 with
    | '*' :: '=' :: rest => matchValue rest
    | '=' :: rest => matchValue rest
    | _ => none
  else none

/-- Leftmost match of the filename regex: Go `FindStringSubmatch`
returns the submatches of the match with the smallest start. -/
def findFilenameMatch : List Char → Option (String × String)
  | [] => none
  | c :: rest =>
    match matchFilenameAt (c :: rest) with
    | some g => some g
    | none => findFilenameMatch rest

/-- Embeds `extractFilenameFromContentDisposition`: group 1 (quoted) is
preferred, then group 2 (unquoted), each trimmed; otherwise the empty
string. -/
def extractFilenameFromContentDisposition (header : String) : String :=
  if header = "" then ""
  else
    match findFilenameMatch header.data with
    | none => ""
    | some (g1, g2) =>
      if g1 ≠ "" then goTrimSpace g1
      else if g2 ≠ "" then goTrimSpace g2
      else ""

/-- Embeds `sanitizeFilename`: replace `/`, `\` and `..` occurrences
with `_`, take the basename, and fall back to `"download"` when the
result is empty, `"."` or `".."`. -/
def sanitizeFilename (filename : String) : String :=
  let f1 := goReplaceAll filename "/" "_"
  let f2 := goReplaceAll f1 "\\" "_"
  let f3 := goReplaceAll f2 ".." "_"
  let b := goFilepathBase f3
  if b = "" ∨ b = "." ∨ b = ".." then "download" else b

/-- Embeds the filename-resolution block of `DownloadFile` (client.go
lines 439-457): sanitize the header filename when present, otherwise
default to `"download"` unless the last `/`-separated component of the
request path is non-empty and differs from `"download"`. -/
def downloadResolvedFilename (contentDisposition requestPath : String) : String :=
  let filename := extractFilenameFromContentDisposition contentDisposition
  if filename ≠ "" then sanitizeFilename filename
  else
    let lastPart := ((goSplitSlash requestPath.data).getLastD []).asString
    if lastPart ≠ "download" ∧ lastPart ≠ "" then lastPart else "download"

/-- Embeds the request/response half of `DownloadFile`: on success the
resolved filename is returned (local destination-path resolution and the
byte stream to disk are filesystem effects outside the model). -/
def Client.DownloadFile (parseJSON : String → Option APIError) (c : Client)
    (path : String) (outcome : Except String Response) : Except ClientError String :=
  let fullURL := buildURL c path
  match outcome with
  | .error msg =>
    .error (.generic ("request failed [GET " ++ fullURL ++ "]: " ++ msg))
  | .ok resp =>
    if resp.statusCode ≥ 400 then
      .error (.api (parseErrorResponse parseJSON resp "GET" fullURL))
    else
      .ok (downloadResolvedFilename resp.contentDisposition path)

end CloudStorage

namespace CloudStorage

/-- Did a validation function reject its input?  (Go: a non-nil
`error`.) -/
def isFailure : Except String Unit → Bool
  | .error _ => true
  | .ok _ => false

/-- Embeds `util.ValidatePath`.  The error texts match the source up to
quote punctuation. -/
def ValidatePath (path : String) : Except String Unit :=
  if path = "" then .error "path cannot be empty"
  else if ¬ goStartsWith path "/" then .error "path must start with /"
  else if goContains path ".." then .error "path cannot contain .."
  else if goContains path "\\" then .error "path must use forward slashes, not backslashes"
  else if goContains path "\x00" then .error "path cannot contain null bytes"
  else if path.data.any (fun r => r.toNat < 32) then
    .error "path cannot contain control characters"
  else .ok ()

/-- The Windows reserved device names of `util.ValidateFilename`. -/
def reservedNames : List String :=
  ["CON", "PRN", "AUX", "NUL",
   "COM1", "COM2", "COM3", "COM4", "COM5", "COM6", "COM7", "COM8", "COM9",
   "LPT1", "LPT2", "LPT3", "LPT4", "LPT5", "LPT6", "LPT7", "LPT8", "LPT9"]

/-- The reserved-name test `ValidateFilename` runs against the
uppercased basename: equal to a reserved name, or that name followed by
a dot. -/
def reservedHit (upperName : String) (r : String) : Bool :=
  upperName = r || goStartsWith upperName (r ++ ".")

/-- Embeds `util.ValidateFilename`.  The error texts match the source up
to quote punctuation. -/
def ValidateFilename (filename : String) : Except String Unit :=
  if filename = "" then .error "filename cannot be empty"
  else if goContains filename "\\" then .error "filename cannot contain path separators"
  else if goFilepathBase filename ≠ filename then
    .error "filename cannot contain path separators"
  else if filename = "." ∨ filename = ".." then .error "filename cannot be . or .."
  else if goContains filename "\x00" then .error "filename cannot contain null bytes"
  else if filename.data.any (fun r => r.toNat < 32) then
    .error "filename cannot contain control characters"
  else
    match reservedNames.find? (reservedHit (goToUpper (goFilepathBase filename))) with
    | some r => .error ("filename cannot be a reserved name: " ++ r)
    | none => .ok ()

end CloudStorage

namespace CloudStorage

/-- Embeds `http.Header.Get`: first value recorded for the key. -/
def headerGet (hs : List (String × String)) (k : String) : Option String :=
  match hs with
  | [] => none
  | (k', v) :: rest => if k' = k then some v else headerGet rest k

lemma parseErrorResponse_fields (parseJSON : String → Option APIError)
    (resp : Response) (method url : String) :
    (parseErrorResponse parseJSON resp method url).statusCode = resp.statusCode ∧
    (parseErrorResponse parseJSON resp method url).method = method ∧
    (parseErrorResponse parseJSON resp method url).url = url := by
  unfold parseErrorResponse
  cases hb : resp.body with
  | none => simp [NewAPIError]
  | some body => cases hp : parseJSON body <;> simp [NewAPIError, hp]

/-- The operation surfaced the failure as a structured `APIError`
carrying the response's status code plus the request method and
fully-resolved URL — not as a generic error. -/
def returnsStructuredAPIError {α : Type} (r : Except ClientError α)
    (resp : Response) (method url : String) : Prop :=
  ∃ e : APIError, r = .error (.api e) ∧
    e.statusCode = resp.statusCode ∧ e.method = method ∧ e.url = url

lemma doRequest_error_structured (parseJSON : String → Option APIError) (c : Client)
    (method path : String) (resp : Response) (h : 400 ≤ resp.statusCode) :
    doRequest parseJSON c method path (.ok resp) =
      .error (.api (parseErrorResponse parseJSON resp method (buildURL c path))) := by
  unfold doRequest
  simp [h]

/-- Claim C1: for every completed HTTP exchange whose response status is
at least 400, `Get`, `Post`, `Put`, `Delete`, `UploadFile` and
`DownloadFile` all fail with a structured `APIError` (never a generic
error) whose `statusCode` is the response's status code and whose
`method`/`url` are the request's method and fully-resolved URL. -/
theorem claim_C1_http_failures_are_structured
    (parseJSON : String → Option APIError) (c : Client) (path : String)
    (resp : Response) (wantResult : Bool) (decodeOk : String → Bool)
    (h : 400 ≤ resp.statusCode) :
    returnsStructuredAPIError
        (Client.Get parseJSON c path (.ok resp) wantResult decodeOk)
        resp "GET" (buildURL c path) ∧
    returnsStructuredAPIError
        (Client.Post parseJSON c path (.ok resp) wantResult decodeOk)
        resp "POST" (buildURL c path) ∧
    returnsStructuredAPIError
        (Client.Put parseJSON c path (.ok resp) wantResult decodeOk)
        resp "PUT" (buildURL c path) ∧
    returnsStructuredAPIError
        (Client.Delete parseJSON c path (.ok resp))
        resp "DELETE" (buildURL c path) ∧
    returnsStructuredAPIError
        (Client.UploadFile parseJSON c path (.ok resp) wantResult decodeOk)
        resp "POST" (buildURL c path) ∧
    returnsStructuredAPIError
        (Client.DownloadFile parseJSON c path (.ok resp))
        resp "GET" (buildURL c path) := by
  have hfields := fun m => parseErrorResponse_fields parseJSON resp m (buildURL c path)
  refine ⟨⟨_, ?_, (hfields "GET").1, (hfields "GET").2.1, (hfields "GET").2.2⟩,
         ⟨_, ?_, (hfields "POST").1, (hfields "POST").2.1, (hfields "POST").2.2⟩,
         ⟨_, ?_, (hfields "PUT").1, (hfields "PUT").2.1, (hfields "PUT").2.2⟩,
         ⟨_, ?_, (hfields "DELETE").1, (hfields "DELETE").2.1, (hfields "DELETE").2.2⟩,
         ⟨_, ?_, (hfields "POST").1, (hfields "POST").2.1, (hfields "POST").2.2⟩,
         ⟨_, ?_, (hfields "GET").1, (hfields "GET").2.1, (hfields "GET").2.2⟩⟩
  · rw [Client.Get, doRequest_error_structured parseJSON c "GET" path resp h]
  · rw [Client.Post, doRequest_error_structured parseJSON c "POST" path resp h]
  · rw [Client.Put, doRequest_error_structured parseJSON c "PUT" path resp h]
  · rw [Client.Delete, doRequest_error_structured parseJSON c "DELETE" path resp h]
  · unfold Client.UploadFile
    simp [h]
  · unfold Client.DownloadFile
    simp [h]

/-- The JSON-parse outcome of the spec scenario body
`{"message":"File not found"}`. -/
def parseJSONDemo : String → Option APIError :=
  fun _ => some (NewAPIError 0 "File not found")

/-- The client of the spec scenario. -/
def clientDemo : Client := ⟨"http://host", "", ""⟩

/-- The 404 response of the spec scenario. -/
def respDemo : Response :=
  ⟨404, "404 Not Found", some "\x7b\"message\":\"File not found\"\x7d", ""⟩

/-- Witness for claim C1 at the spec scenario: a GET answered with 404
and body `{"message":"File not found"}`. -/
theorem claim_C1_witness :
    400 ≤ respDemo.statusCode ∧
    (returnsStructuredAPIError
        (Client.Get parseJSONDemo clientDemo "/api/files/123" (.ok respDemo) true (fun _ => true))
        respDemo "GET" (buildURL clientDemo "/api/files/123") ∧
     returnsStructuredAPIError
        (Client.Post parseJSONDemo clientDemo "/api/files/123" (.ok respDemo) true (fun _ => true))
        respDemo "POST" (buildURL clientDemo "/api/files/123") ∧
     returnsStructuredAPIError
        (Client.Put parseJSONDemo clientDemo "/api/files/123" (.ok respDemo) true (fun _ => true))
        respDemo "PUT" (buildURL clientDemo "/api/files/123") ∧
     returnsStructuredAPIError
        (Client.Delete parseJSONDemo clientDemo "/api/files/123" (.ok respDemo))
        respDemo "DELETE" (buildURL clientDemo "/api/files/123") ∧
     returnsStructuredAPIError
        (Client.UploadFile parseJSONDemo clientDemo "/api/files/123" (.ok respDemo) true (fun _ => true))
        respDemo "POST" (buildURL clientDemo "/api/files/123") ∧
     returnsStructuredAPIError
        (Client.DownloadFile parseJSONDemo clientDemo "/api/files/123" (.ok respDemo))
        respDemo "GET" (buildURL clientDemo "/api/files/123")) :=
  ⟨by decide,
   claim_C1_http_failures_are_structured parseJSONDemo clientDemo "/api/files/123" respDemo
     true (fun _ => true) (by decide)⟩

/-- Claim C2 evaluated on the code: an `APIError` with status 404,
message "File not found", no details, method GET and URL
`http://host/api/files/123` renders with a spurious trailing `" - "`
(the duplicated `e.Message != ""` branch always appends
`" - " + details` even when details are empty), so the rendering the
claim and the README document is NOT produced. -/
theorem claim_C2_trailing_dash_bug :
    APIError.errorString
        { statusCode := 404, message := "File not found", details := "",
          method := "GET", url := "http://host/api/files/123" } =
      "API error (404) [GET http://host/api/files/123]: File not found - " ∧
    APIError.errorString
        { statusCode := 404, message := "File not found", details := "",
          method := "GET", url := "http://host/api/files/123" } ≠
      "API error (404) [GET http://host/api/files/123]: File not found" := by
  constructor
  · decide
  · decide

/-- Counterexample to claim C4: the `Content-Disposition` value
`attachment; filename="../../etc/passwd"` does NOT resolve to the
basename `passwd`. -/
theorem claim_C4_counterexample :
    downloadResolvedFilename "attachment; filename=\"../../etc/passwd\""
        "/api/files/123/download" ≠ "passwd" := by
  decide

/-- Claim C4 as amended: that header resolves to `____etc_passwd` —
every `/` and `..` occurrence is replaced by `_` before the basename is
taken, so no traversal component survives, but the saved name is not the
bare basename. -/
theorem claim_C4_amended :
    downloadResolvedFilename "attachment; filename=\"../../etc/passwd\""
        "/api/files/123/download" = "____etc_passwd" ∧
    goContains "____etc_passwd" "/" = false ∧
    goContains "____etc_passwd" "\\" = false ∧
    goContains "____etc_passwd" ".." = false := by
  refine ⟨by decide, by decide, by decide, by decide⟩

/-- Claim C5: a request built by `doRequest` carries at most one
credential header; `X-API-Key` is attached exactly when the API key is
non-empty (taking precedence over the token), otherwise
`Authorization: Bearer <token>` exactly when the token is non-empty,
otherwise neither. -/
theorem claim_C5_single_credential_header (c : Client) :
    (¬ ((headerGet (requestHeaders c) "X-API-Key").isSome = true ∧
        (headerGet (requestHeaders c) "Authorization").isSome = true)) ∧
    (if c.apiKey ≠ "" then
        headerGet (requestHeaders c) "X-API-Key" = some c.apiKey ∧
        headerGet (requestHeaders c) "Authorization" = none
      else if c.accessToken ≠ "" then
        headerGet (requestHeaders c) "Authorization" = some ("Bearer " ++ c.accessToken) ∧
        headerGet (requestHeaders c) "X-API-Key" = none
      else
        headerGet (requestHeaders c) "X-API-Key" = none ∧
        headerGet (requestHeaders c) "Authorization" = none) := by
  by_cases h1 : c.apiKey = "" <;> by_cases h2 : c.accessToken = "" <;>
    simp [requestHeaders, setAuthHeaders, baseJSONHeaders, headerSet, headerGet, h1, h2]

end CloudStorage

namespace CloudStorage

lemma takeWhile_append_last_not (p : Char → Bool) (xs : List Char) (c : Char)
    (hc : p c = false) : (xs ++ [c]).takeWhile p = xs.takeWhile p := by
  induction xs with
  | nil => simp [List.takeWhile_cons, hc]
  | cons x xs ih =>
    by_cases h : p x <;> simp [List.takeWhile_cons, h, ih]

lemma takeWhile_append_last_pos (p : Char → Bool) (xs : List Char) (c : Char)
    (hc : p c = true) :
    (xs ++ [c]).takeWhile p = if xs.all p then xs ++ [c] else xs.takeWhile p := by
  induction xs with
  | nil => simp [List.takeWhile_cons, hc]
  | cons x xs ih =>
    by_cases h : p x
    · by_cases hall : xs.all p <;>
        simp [List.takeWhile_cons, h, ih, List.all_cons, hall]
    · simp [List.takeWhile_cons, h, List.all_cons]

lemma takeWhile_all_eq_self (p : Char → Bool) (l : List Char)
    (h : ∀ x ∈ l, p x = true) : l.takeWhile p = l := by
  induction l with
  | nil => rfl
  | cons x xs ih =>
    have hx : p x = true := h x (by simp)
    simp [List.takeWhile_cons, hx, ih fun y hy => h y (by simp [hy])]

lemma dropWhile_eq_self_of_all (p : Char → Bool) (l : List Char)
    (h : ∀ x ∈ l, p x = false) : l.dropWhile p = l := by
  cases l with
  | nil => rfl
  | cons x xs =>
    have hx : p x = false := h x (by simp)
    simp [List.dropWhile_cons, hx]

lemma afterLastSep_slash (rest : List Char) :
    afterLastSep ('/' :: rest) = afterLastSep rest := by
  unfold afterLastSep
  rw [List.reverse_cons, takeWhile_append_last_not]
  simp

lemma afterLastSep_noslash (l : List Char) (h : '/' ∉ l) : afterLastSep l = l := by
  unfold afterLastSep
  rw [takeWhile_all_eq_self]
  · exact l.reverse_reverse
  · intro x hx
    simp only [List.mem_reverse] at hx
    simp only [decide_eq_true_eq]
    intro hfalse
    exact h (hfalse ▸ hx)

lemma afterLastSep_cons_of_slash_mem (c : Char) (rest : List Char) (hc : c ≠ '/')
    (h : '/' ∈ rest) : afterLastSep (c :: rest) = afterLastSep rest := by
  unfold afterLastSep
  rw [List.reverse_cons, takeWhile_append_last_pos _ _ _ (by simp [hc]), if_neg]
  intro hall
  rw [List.all_eq_true] at hall
  have := hall '/' (by simp [h])
  simp at this

lemma goSplitSlash_ne_nil (l : List Char) : goSplitSlash l ≠ [] := by
  cases l with
  | nil => simp [goSplitSlash]
  | cons c rest =>
    unfold goSplitSlash
    by_cases hc : c = '/'
    · simp [hc]
    · simp only [hc, if_false]
      cases goSplitSlash rest <;> simp

lemma goSplitSlash_noslash (l : List Char) (h : '/' ∉ l) : goSplitSlash l = [l] := by
  induction l with
  | nil => rfl
  | cons c rest ih =>
    have hc : ¬ c = '/' := fun hc => h (by simp [hc])
    have hrest : '/' ∉ rest := fun hx => h (by simp [hx])
    unfold goSplitSlash
    simp [hc, ih hrest]

lemma goSplitSlash_len_of_slash (l : List Char) (h : '/' ∈ l) :
    2 ≤ (goSplitSlash l).length := by
  induction l with
  | nil => simp at h
  | cons c rest ih =>
    unfold goSplitSlash
    by_cases hc : c = '/'
    · have := goSplitSlash_ne_nil rest
      simp only [hc, if_true, List.length_cons]
      cases hrest : goSplitSlash rest with
      | nil => exact absurd hrest this
      | cons a t => simp
    · have hmem : '/' ∈ rest := by
        rcases List.mem_cons.mp h with h1 | h1
        · exact absurd h1.symm hc
        · exact h1
      have h2 := ih hmem
      simp only [hc, if_false]
      cases hrest : goSplitSlash rest with
      | nil => exact absurd hrest (goSplitSlash_ne_nil rest)
      | cons a t =>
        rw [hrest] at h2
        simpa using h2

lemma getLastD_splitSlash (l : List Char) :
    ∀ d : List Char, (goSplitSlash l).getLastD d = afterLastSep l := by
  induction l with
  | nil => intro d; simp [goSplitSlash, afterLastSep]
  | cons c rest ih =>
    intro d
    by_cases hc : c = '/'
    · subst hc
      unfold goSplitSlash
      simp only [if_true]
      rw [List.getLastD_cons, ih, afterLastSep_slash]
    · by_cases hmem : '/' ∈ rest
      · have hlen := goSplitSlash_len_of_slash rest hmem
        unfold goSplitSlash
        simp only [hc, if_false]
        cases hrest : goSplitSlash rest with
        | nil => exact absurd hrest (goSplitSlash_ne_nil rest)
        | cons a t =>
          rw [hrest] at hlen
          cases t with
          | nil => simp at hlen
          | cons b t' =>
            have h1 := ih d
            rw [hrest, List.getLastD_cons] at h1
            rw [List.getLastD_cons]
            rw [List.getLastD_cons] at h1 ⊢
            rw [afterLastSep_cons_of_slash_mem c rest hc hmem, ← h1]
      · rw [goSplitSlash_noslash rest hmem] at ih
        unfold goSplitSlash
        simp only [hc, if_false, goSplitSlash_noslash rest hmem]
        have hnos : '/' ∉ c :: rest := by
          intro hx
          rcases List.mem_cons.mp hx with h1 | h1
          · exact hc h1.symm
          · exact hmem h1
        rw [afterLastSep_noslash _ hnos]
        simp [List.getLastD]

/-- The last `/`-separated component of the request path, as a direct
suffix computation. -/
def lastPathSegment (path : String) : String :=
  (afterLastSep path.data).asString

/-- The fallback filename exactly as claim C7 words it: the final
non-empty path segment of the request path, a literal trailing
`download` segment excluded, and `"download"` when no such segment
exists. -/
def specFallbackSegment (path : String) : String :=
  let segs := (goSplitSlash path.data).map List.asString
  let trimmed := if segs.getLastD "" = "download" then segs.dropLast else segs
  let nonEmpty := trimmed.filter (fun s => s ≠ "")
  let last := nonEmpty.getLastD ""
  if last = "" then "download" else last

/-- Counterexample to claim C7: for the request path `/api/files/123/`
(no filename in the header) the code resolves `download`, not the final
non-empty segment `123` the claim demands. -/
theorem claim_C7_counterexample :
    downloadResolvedFilename "" "/api/files/123/" = "download" ∧
    specFallbackSegment "/api/files/123/" = "123" ∧
    downloadResolvedFilename "" "/api/files/123/" ≠ specFallbackSegment "/api/files/123/" := by
  refine ⟨by decide, by decide, by decide⟩

/-- Claim C7 as amended: when the `Content-Disposition` header yields no
filename, the saved filename is the last `/`-separated component of the
request path when that component is non-empty and differs from the
literal `download`; otherwise it is `download` (earlier segments are
never consulted). -/
theorem claim_C7_amended (cd path : String)
    (h : extractFilenameFromContentDisposition cd = "") :
    downloadResolvedFilename cd path =
      if lastPathSegment path ≠ "download" ∧ lastPathSegment path ≠ "" then
        lastPathSegment path
      else "download" := by
  unfold downloadResolvedFilename
  rw [h]
  simp only [ne_eq, not_true_eq_false, if_false]
  rw [getLastD_splitSlash]
  rfl

/-- Witness for claim C7's amended theorem at a concrete path. -/
theorem claim_C7_witness :
    extractFilenameFromContentDisposition "" = "" ∧
    downloadResolvedFilename "" "/api/files/abc" =
      (if lastPathSegment "/api/files/abc" ≠ "download" ∧
          lastPathSegment "/api/files/abc" ≠ "" then
        lastPathSegment "/api/files/abc"
      else "download") :=
  ⟨by decide, claim_C7_amended "" "/api/files/abc" (by decide)⟩

/-- Claim C8: every string containing `..` as a substring is rejected by
`ValidatePath`. -/
theorem claim_C8_dotdot_path_rejected (s : String)
    (h : goContains s ".." = true) : isFailure (ValidatePath s) = true := by
  unfold ValidatePath
  repeat' split
  all_goals simp_all [isFailure]

/-- Witness for claim C8 at the traversal path `/a/../b`. -/
theorem claim_C8_witness :
    goContains "/a/../b" ".." = true ∧ isFailure (ValidatePath "/a/../b") = true :=
  ⟨by decide, claim_C8_dotdot_path_rejected "/a/../b" (by decide)⟩

/-- Claim C9: `ValidateFilename` rejects every filename whose uppercased
basename equals a reserved device name or starts with one followed by a
dot; in particular `CON` and `con.txt` are rejected while `CONTRACT.txt`
is accepted. -/
theorem claim_C9_reserved_names_rejected :
    (∀ fn : String,
        reservedNames.any (reservedHit (goToUpper (goFilepathBase fn))) = true →
        isFailure (ValidateFilename fn) = true) ∧
    isFailure (ValidateFilename "CON") = true ∧
    isFailure (ValidateFilename "con.txt") = true ∧
    isFailure (ValidateFilename "CONTRACT.txt") = false := by
  refine ⟨?_, by decide, by decide, by decide⟩
  intro fn h
  rw [List.any_eq_true] at h
  obtain ⟨r, hr, hhit⟩ := h
  unfold ValidateFilename
  repeat' split
  all_goals simp_all [isFailure, List.find?_eq_none]

/-- Witness for claim C9's universal part at the reserved name
`com1.log`. -/
theorem claim_C9_witness :
    reservedNames.any (reservedHit (goToUpper (goFilepathBase "com1.log"))) = true ∧
    isFailure (ValidateFilename "com1.log") = true :=
  ⟨by decide, claim_C9_reserved_names_rejected.1 "com1.log" (by decide)⟩

end CloudStorage

namespace CloudStorage

/-- Spec reading of the separator step of sanitization: every `/` and
every `\` becomes `_`. -/
def replaceSeparators (l : List Char) : List Char :=
  l.map fun c => if c = '/' ∨ c = '\\' then '_' else c

/-- Spec reading of the traversal step of sanitization: each
non-overlapping `..` occurrence, scanned left to right, becomes one
`_`. -/
def replaceDotDot : List Char → List Char
  | [] => []
  | [c] => [c]
  | c :: d :: rest =>
    if c = '.' ∧ d = '.' then '_' :: replaceDotDot rest
    else c :: replaceDotDot (d :: rest)

/-- The function `sanitizeFilename` exactly as the spec words it: replace `/`, `\`
and `..` occurrences with `_`, take the basename, and fall back to
`download` on an empty, `.` or `..` result. -/
def sanitizeFilenameSpec (filename : String) : String :=
  let replaced := (replaceDotDot (replaceSeparators filename.data)).asString
  let b := goFilepathBase replaced
  if b = "" ∨ b = "." ∨ b = ".." then "download" else b

/-- Induction along the two-character window `replaceDotDot` scans. -/
theorem twoStepInduction {motive : List Char → Prop} (h0 : motive [])
    (h1 : ∀ c, motive [c])
    (h2 : ∀ c d rest, motive rest → motive (d :: rest) → motive (c :: d :: rest)) :
    ∀ l, motive l
  | [] => h0
  | [c] => h1 c
  | c :: d :: rest =>
    h2 c d rest (twoStepInduction h0 h1 h2 rest) (twoStepInduction h0 h1 h2 (d :: rest))

lemma replaceAllFuel_single (a b : Char) :
    ∀ (fuel : Nat) (l : List Char), l.length ≤ fuel →
      replaceAllFuel [a] [b] fuel l = l.map (fun c => if c = a then b else c) := by
  intro fuel
  induction fuel with
  | zero =>
    intro l hl
    have : l = [] := List.length_eq_zero.mp (Nat.le_zero.mp hl)
    subst this
    rfl
  | succ n ih =>
    intro l hl
    cases l with
    | nil => rfl
    | cons c rest =>
      unfold replaceAllFuel
      by_cases hca : a = c
      · subst hca
        rw [if_pos ⟨by simp, by simp [List.isPrefixOf]⟩]
        rw [show List.drop ([a] : List Char).length (a :: rest) = rest from rfl]
        rw [ih rest (by simpa using Nat.le_of_succ_le_succ hl)]
        simp
      · rw [if_neg]
        · rw [ih rest (by simpa using Nat.le_of_succ_le_succ hl)]
          simp only [List.map_cons]
          rw [if_neg fun hh => hca hh.symm]
        · intro hpre
          have h5 := hpre.2
          simp [List.isPrefixOf] at h5
          exact hca h5

lemma replaceAllFuel_dotdot :
    ∀ (fuel : Nat) (l : List Char), l.length ≤ fuel →
      replaceAllFuel ['.', '.'] ['_'] fuel l = replaceDotDot l := by
  intro fuel
  induction fuel with
  | zero =>
    intro l hl
    have : l = [] := List.length_eq_zero.mp (Nat.le_zero.mp hl)
    subst this
    rfl
  | succ n ih =>
    intro l hl
    match l with
    | [] => rfl
    | [c] =>
      unfold replaceAllFuel
      rw [if_neg]
      · cases n <;> rfl
      · intro hpre
        have := hpre.2
        simp [List.isPrefixOf] at this
    | c :: d :: rest =>
      by_cases hcd : c = '.' ∧ d = '.'
      · obtain ⟨hc, hd⟩ := hcd
        subst hc; subst hd
        unfold replaceAllFuel
        rw [if_pos ⟨by simp, by simp [List.isPrefixOf]⟩]
        simp only [List.length_cons] at hl
        rw [show List.drop (['.', '.'] : List Char).length ('.' :: '.' :: rest) = rest
              from rfl,
            ih rest (by omega)]
        simp only [replaceDotDot]
        simp
      · unfold replaceAllFuel
        rw [if_neg]
        · simp only [List.length_cons] at hl
          rw [ih (d :: rest) (by simp; omega)]
          simp only [replaceDotDot]
          rw [if_neg hcd]
        · intro hpre
          have := hpre.2
          simp [List.isPrefixOf] at this
          exact hcd ⟨this.1.symm, this.2.symm⟩

lemma data_asString (l : List Char) : (List.asString l).data = l := rfl

lemma sanitizeFilename_eq_spec (s : String) :
    sanitizeFilename s = sanitizeFilenameSpec s := by
  simp only [sanitizeFilename, sanitizeFilenameSpec, goReplaceAll]
  rw [replaceAllFuel_single '/' '_' _ _ (Nat.le_refl _)]
  rw [data_asString, replaceAllFuel_single '\\' '_' _ _ (Nat.le_refl _)]
  rw [data_asString, replaceAllFuel_dotdot _ _ (Nat.le_refl _)]
  rw [List.map_map]
  have hmap :
      ((fun c => if c = '\\' then '_' else c) ∘ fun c => if c = '/' then '_' else c) =
        fun c => if c = '/' ∨ c = '\\' then '_' else c := by
    funext c
    by_cases hc1 : c = '/'
    · subst hc1; simp
    · by_cases hc2 : c = '\\' <;> simp [hc1, hc2]
  rw [hmap]
  rfl

/-- Claim C3: the sanitization step is exactly — for every input — the
spec's pipeline: replace `/`, `\` and `..` occurrences with `_`, take
the basename, and return `download` when the result is empty, `.` or
`..`. -/
theorem claim_C3_sanitize_matches_spec (s : String) :
    sanitizeFilename s = sanitizeFilenameSpec s :=
  sanitizeFilename_eq_spec s

end CloudStorage

namespace CloudStorage

lemma containsSub_singleton (a : Char) (l : List Char) :
    containsSub [a] l = true ↔ a ∈ l := by
  induction l with
  | nil => simp [containsSub]
  | cons c rest ih =>
    show (([a].isPrefixOf (c :: rest) || containsSub [a] rest) = true) ↔ _
    simp [List.isPrefixOf, ih, List.mem_cons]

lemma replaceSeparators_mem (l : List Char) :
    ∀ x ∈ replaceSeparators l, x ≠ '/' ∧ x ≠ '\\' := by
  intro x hx
  unfold replaceSeparators at hx
  rw [List.mem_map] at hx
  obtain ⟨c, _, hc⟩ := hx
  subst hc
  by_cases h1 : c = '/' ∨ c = '\\'
  · simp [h1]
  · rw [if_neg h1]
    exact not_or.mp h1

lemma replaceDotDot_subset :
    ∀ (l : List Char) (x : Char), x ∈ replaceDotDot l → x ∈ l ∨ x = '_' := by
  intro l
  induction l using twoStepInduction with
  | h0 => intro x hx; simp [replaceDotDot] at hx
  | h1 c => intro x hx; simp [replaceDotDot] at hx; left; simp [hx]
  | h2 c d rest ih1 ih2 =>
    intro x hx
    by_cases hcd : c = '.' ∧ d = '.'
    · rw [show replaceDotDot (c :: d :: rest) = '_' :: replaceDotDot rest by
          simp [replaceDotDot, hcd]] at hx
      rcases List.mem_cons.mp hx with h | h
      · right; exact h
      · rcases ih1 x h with h2 | h2
        · left; simp [h2]
        · right; exact h2
    · rw [show replaceDotDot (c :: d :: rest) = c :: replaceDotDot (d :: rest) by
          simp [replaceDotDot, hcd]] at hx
      rcases List.mem_cons.mp hx with h | h
      · left; simp [h]
      · rcases ih2 x h with h2 | h2
        · left; simp [List.mem_cons.mp h2]
        · right; exact h2

lemma replaceDotDot_cons_head (c : Char) (rest : List Char) :
    ∃ y t, replaceDotDot (c :: rest) = y :: t ∧ (y = c ∨ y = '_') := by
  cases rest with
  | nil => exact ⟨c, [], rfl, Or.inl rfl⟩
  | cons d rest' =>
    by_cases hcd : c = '.' ∧ d = '.'
    · exact ⟨'_', replaceDotDot rest', by simp [replaceDotDot, hcd], Or.inr rfl⟩
    · exact ⟨c, replaceDotDot (d :: rest'), by simp [replaceDotDot, hcd], Or.inl rfl⟩

lemma replaceDotDot_no_dotdot :
    ∀ l : List Char, containsSub ['.', '.'] (replaceDotDot l) = false := by
  intro l
  induction l using twoStepInduction with
  | h0 => rfl
  | h1 c => simp [replaceDotDot, containsSub, List.isPrefixOf]
  | h2 c d rest ih1 ih2 =>
    by_cases hcd : c = '.' ∧ d = '.'
    · rw [show replaceDotDot (c :: d :: rest) = '_' :: replaceDotDot rest by
          simp [replaceDotDot, hcd]]
      show (['.', '.'].isPrefixOf ('_' :: replaceDotDot rest) ||
            containsSub ['.', '.'] (replaceDotDot rest)) = false
      rw [ih1]
      simp [List.isPrefixOf]
    · rw [show replaceDotDot (c :: d :: rest) = c :: replaceDotDot (d :: rest) by
          simp [replaceDotDot, hcd]]
      obtain ⟨y, t, heq, hy⟩ := replaceDotDot_cons_head d rest
      rw [heq]
      show (['.', '.'].isPrefixOf (c :: y :: t) || containsSub ['.', '.'] (y :: t)) = false
      have h2' : containsSub ['.', '.'] (y :: t) = false := by rw [← heq]; exact ih2
      rw [h2']
      rw [Bool.or_false]
      by_cases hc : c = '.'
      · have hd : d ≠ '.' := fun hd => hcd ⟨hc, hd⟩
        have hyne : ('.' : Char) ≠ y := by
          rcases hy with h | h
          · subst h; exact fun he => hd he.symm
          · subst h; decide
        simp [List.isPrefixOf, hyne]
      · have hcne : ('.' : Char) ≠ c := fun he => hc he.symm
        simp [List.isPrefixOf, hcne]

lemma goFilepathBase_noslash (l : List Char) (h0 : l ≠ []) (h : '/' ∉ l) :
    goFilepathBase l.asString = l.asString := by
  have hne : l.isEmpty ≠ true := by
    cases l with
    | nil => exact absurd rfl h0
    | cons c rest => simp [List.isEmpty]
  have h1 : dropTrailingSep l = l := by
    unfold dropTrailingSep
    rw [dropWhile_eq_self_of_all]
    · exact l.reverse_reverse
    · intro x hx
      rw [List.mem_reverse] at hx
      exact decide_eq_false fun he => h (he ▸ hx)
  have h2 : afterLastSep l = l := afterLastSep_noslash l h
  simp only [goFilepathBase, data_asString, h1, h2]
  rw [if_neg hne, if_neg hne]

/-- Claim C10: for every input, `sanitizeFilename` returns a non-empty
string different from `.` and `..` that contains no `/`, no `\` and no
`..` substring — replacing `..` occurrences with `_` cannot re-create a
`..` in the output. -/
theorem claim_C10_sanitize_output_safe (s : String) :
    sanitizeFilename s ≠ "" ∧ sanitizeFilename s ≠ "." ∧ sanitizeFilename s ≠ ".." ∧
    goContains (sanitizeFilename s) "/" = false ∧
    goContains (sanitizeFilename s) "\\" = false ∧
    goContains (sanitizeFilename s) ".." = false := by
  rw [sanitizeFilename_eq_spec]
  simp only [sanitizeFilenameSpec]
  set r := replaceDotDot (replaceSeparators s.data) with hr
  by_cases hb : goFilepathBase r.asString = "" ∨ goFilepathBase r.asString = "." ∨
      goFilepathBase r.asString = ".."
  · rw [if_pos hb]
    exact ⟨by decide, by decide, by decide, by decide, by decide, by decide⟩
  · rw [if_neg hb]
    have hnoslash : '/' ∉ r := by
      intro hmem
      rcases replaceDotDot_subset (replaceSeparators s.data) '/' (hr ▸ hmem) with hm | hm
      · exact (replaceSeparators_mem s.data '/' hm).1 rfl
      · exact absurd hm (by decide)
    have hbs : '\\' ∉ r := by
      intro hmem
      rcases replaceDotDot_subset (replaceSeparators s.data) '\\' (hr ▸ hmem) with hm | hm
      · exact (replaceSeparators_mem s.data '\\' hm).2 rfl
      · exact absurd hm (by decide)
    have hrne : r ≠ [] := by
      intro hnil
      apply hb
      rw [hnil]
      right; left
      decide
    have hbase : goFilepathBase r.asString = r.asString := goFilepathBase_noslash r hrne hnoslash
    rw [hbase] at hb
    push_neg at hb
    obtain ⟨hb1, hb2, hb3⟩ := hb
    rw [hbase]
    refine ⟨hb1, hb2, hb3, ?_, ?_, ?_⟩
    · show containsSub ['/'] r = false
      cases hcs : containsSub ['/'] r with
      | false => rfl
      | true => exact absurd ((containsSub_singleton '/' r).mp hcs) hnoslash
    · show containsSub ['\\'] r = false
      cases hcs : containsSub ['\\'] r with
      | false => rfl
      | true => exact absurd ((containsSub_singleton '\\' r).mp hcs) hbs
    · show containsSub ['.', '.'] r = false
      rw [hr]
      exact replaceDotDot_no_dotdot _

end CloudStorage

namespace CloudStorage

/-- Claim C6: the upload form always carries the `file` field with the
local file's bytes under its basename, carries a `folderPath` text field
exactly when the folder path is non-empty (and then with that value),
and carries a `filename` text field exactly when a non-empty filename
override is supplied (and then with that value). -/
theorem claim_C6_upload_form_fields (filePath fileContent folderPath filename : String) :
    FormPart.filePart "file" (goFilepathBase filePath) fileContent ∈
      uploadForm filePath fileContent folderPath filename ∧
    ((∃ v, FormPart.field "folderPath" v ∈ uploadForm filePath fileContent folderPath filename)
      ↔ folderPath ≠ "") ∧
    (FormPart.field "folderPath" folderPath ∈ uploadForm filePath fileContent folderPath filename
      ↔ folderPath ≠ "") ∧
    ((∃ v, FormPart.field "filename" v ∈ uploadForm filePath fileContent folderPath filename)
      ↔ filename ≠ "") ∧
    (FormPart.field "filename" filename ∈ uploadForm filePath fileContent folderPath filename
      ↔ filename ≠ "") := by
  by_cases h1 : folderPath = "" <;> by_cases h2 : filename = "" <;>
    simp [uploadForm, h1, h2]

end CloudStorage

section Scratch

open CloudStorage

example : goContains "/a/../b" ".." = true := by decide

example : goFilepathBase "/a/b/" = "b" := by decide

example : goFilepathBase "////" = "/" := by decide

example : goReplaceAll "../../etc/passwd" "/" "_" = ".._.._etc_passwd" := by decide

example : goReplaceAll ".._.._etc_passwd" ".." "_" = "____etc_passwd" := by decide

example :
    APIError.errorString
      { statusCode := 404, message := "File not found", details := "",
        method := "GET", url := "http://host/api/files/123" } =
    "API error (404) [GET http://host/api/files/123]: File not found - " := by decide

example :
    extractFilenameFromContentDisposition "attachment; filename=\"../../etc/passwd\"" =
    "../../etc/passwd" := by decide

example :
    sanitizeFilename "../../etc/passwd" = "____etc_passwd" := by decide

example :
    downloadResolvedFilename "attachment; filename=\"../../etc/passwd\"" "/api/files/123/download" =
    "____etc_passwd" := by decide

example : downloadResolvedFilename "" "/api/files/123/" = "download" := by decide

example : downloadResolvedFilename "" "/api/files/123" = "123" := by decide

example :
    extractFilenameFromContentDisposition "attachment; filename=report.pdf" = "report.pdf" := by
  decide

example : buildURL ⟨"http://host/", "", ""⟩ "api/x" = "http://host/api/x" := by decide

example : isFailure (ValidatePath "/a/../b") = true := by decide

example : isFailure (ValidatePath "/documents/reports") = false := by decide

example : isFailure (ValidateFilename "CON") = true := by decide

example : isFailure (ValidateFilename "con.txt") = true := by decide

example : isFailure (ValidateFilename "CONTRACT.txt") = false := by decide

example : isFailure (ValidateFilename "com1.log") = true := by decide

end Scratch
